import Mathlib

/-!
# Verification of the content-based recommendation core (`app/services/recommend.py`)

Shallow embedding of the recommendation engine: TF-IDF corpus vectorization
(`TfidfVectorizer(stop_words="english", max_features=25000)` semantics),
weighted user-profile construction, cosine-similarity ranking with
already-interacted exclusion, and the cold-start metadata-richness/recency
fallback.

Modelling conventions:
* Python floats are modelled as real numbers (`ℝ`); `math.log1p s` is
  `Real.log (1 + s)`.
* Timestamps (`datetime`) are modelled as integers (`ℤ`), which preserves the
  total order used by the code.
* The database session plus `crud.get_all_videos` / `crud.get_user_interactions`
  collaborators are replaced by the already-materialized lists they return
  (the catalog snapshot and the user's interaction list).
* `numpy.argsort` is modelled as a *stable* ascending sort of indices
  (equal keys keep index order); numpy's default kind is introsort whose tie
  order is implementation-defined, but for the arrays at hand small-array
  insertion sort is what numpy actually runs, which is stable.
* `sklearn` raising `ValueError` (empty vocabulary) is modelled with
  `Except String`.
* Real-valued conditionals (`if total_weight <= 0`) use classical decidability.
-/

namespace YTRec

open Real

/-- A catalog row (`app/models.py` `Video`): identifier, title, description
(both non-nullable strings in the schema), optional publish timestamp and a
non-null creation timestamp. -/
structure Video where
  video_id : String
  title : String
  description : String
  published_at : Option ℤ
  created_at : ℤ
deriving DecidableEq, Repr

/-- An interaction row (`app/models.py` `Interaction`): the fields the
recommender reads — video identifier, event kind, optional watch duration. -/
structure Interaction where
  user_id : String
  video_id : String
  event_type : String
  watch_seconds : Option ℤ
deriving DecidableEq, Repr

/-- Schema `app/schemas.py` `RecommendationItem`: identifier, score, reason strings. -/
structure RecommendationItem where
  video_id : String
  score : ℝ
  reasons : List String

/-- Constant `POSITIVE_EVENTS = {"watch", "click", "like"}` (membership-only use). -/
def POSITIVE_EVENTS : List String := ["watch", "click", "like"]

/-- Lookup `EVENT_BASE_WEIGHTS.get(event_type, 1.0)` with
`EVENT_BASE_WEIGHTS = {"watch": 2.0, "click": 1.0, "like": 3.0}`. -/
def eventBaseWeight (e : String) : ℝ :=
  if e = "watch" then 2.0 else if e = "click" then 1.0 else if e = "like" then 3.0 else 1.0

/-- Source `_watch_weight`: 1.0 for absent or non-positive durations, otherwise
`1.0 + min(log1p(watch_seconds), 5.0)`. -/
noncomputable def watchWeight : Option ℤ → ℝ
  | none => 1.0
  | some s => if s ≤ 0 then 1.0 else 1.0 + min (Real.log (1 + (s : ℝ))) 5.0

/-- The weight `_build_user_profile` assigns to one interaction:
`EVENT_BASE_WEIGHTS.get(event_type, 1.0) * _watch_weight(watch_seconds)`. -/
noncomputable def interactionWeight (it : Interaction) : ℝ :=
  eventBaseWeight it.event_type * watchWeight it.watch_seconds

/-- Python `str.strip()` on a character list: drop leading and trailing whitespace. -/
def stripChars (cs : List Char) : List Char :=
  ((cs.dropWhile Char.isWhitespace).reverse.dropWhile Char.isWhitespace).reverse

/-- Source `_video_text`: the stripped concatenation of title, a space and description
(`title` and `description` are non-nullable in the schema, so `or ''` only
re-produces the empty string). -/
def videoText (v : Video) : String :=
  String.mk (stripChars (v.title ++ " " ++ v.description).data)

/-! ## Tokenization (`TfidfVectorizer` analyzer)

`TfidfVectorizer` lowercases each document and extracts tokens with the
default pattern `(?u)\b\w\w+\b` — maximal runs of word characters of length
at least two — then removes the built-in English stop words. -/

/-- A regex word character (`\w`), restricted to ASCII as used by the corpus. -/
def wordChar (c : Char) : Bool := c.isAlphanum || c = '_'

/-- Split a character list into maximal runs of word characters (the effect of
`re.findall(r"\b\w\w+\b", doc)` before the length filter; the accumulator
holds the current run reversed). -/
def tokenizeAux : List Char → List Char → List String
  | [], acc => if acc.isEmpty then [] else [String.mk acc.reverse]
  | c :: rest, acc =>
    if wordChar c then tokenizeAux rest (c :: acc)
    else if acc.isEmpty then tokenizeAux rest acc
    else String.mk acc.reverse :: tokenizeAux rest []

/-- List `sklearn.feature_extraction.text.ENGLISH_STOP_WORDS` (the frozen built-in
English stop-word list selected by `stop_words="english"`). -/
def ENGLISH_STOP_WORDS : List String :=
  ["a", "about", "above", "across", "after", "afterwards", "again", "against",
   "all", "almost", "alone", "along", "already", "also", "although", "always",
   "am", "among", "amongst", "amoungst", "amount", "an", "and", "another",
   "any", "anyhow", "anyone", "anything", "anyway", "anywhere", "are",
   "around", "as", "at", "back", "be", "became", "because", "become",
   "becomes", "becoming", "been", "before", "beforehand", "behind", "being",
   "below", "beside", "besides", "between", "beyond", "bill", "both",
   "bottom", "but", "by", "call", "can", "cannot", "cant", "co", "con",
   "could", "couldnt", "cry", "de", "describe", "detail", "do", "done",
   "down", "due", "during", "each", "eg", "eight", "either", "eleven",
   "else", "elsewhere", "empty", "enough", "etc", "even", "ever", "every",
   "everyone", "everything", "everywhere", "except", "few", "fifteen",
   "fifty", "fill", "find", "fire", "first", "five", "for", "former",
   "formerly", "forty", "found", "four", "from", "front", "full", "further",
   "get", "give", "go", "had", "has", "hasnt", "have", "he", "hence", "her",
   "here", "hereafter", "hereby", "herein", "hereupon", "hers", "herself",
   "him", "himself", "his", "how", "however", "hundred", "i", "ie", "if",
   "in", "inc", "indeed", "interest", "into", "is", "it", "its", "itself",
   "keep", "last", "latter", "latterly", "least", "less", "ltd", "made",
   "many", "may", "me", "meanwhile", "might", "mill", "mine", "more",
   "moreover", "most", "mostly", "move", "much", "must", "my", "myself",
   "name", "namely", "neither", "never", "nevertheless", "next", "nine",
   "no", "nobody", "none", "noone", "nor", "not", "nothing", "now",
   "nowhere", "of", "off", "often", "on", "once", "one", "only", "onto",
   "or", "other", "others", "otherwise", "our", "ours", "ourselves", "out",
   "over", "own", "part", "per", "perhaps", "please", "put", "rather", "re",
   "same", "see", "seem", "seemed", "seeming", "seems", "serious", "several",
   "she", "should", "show", "side", "since", "sincere", "six", "sixty",
   "so", "some", "somehow", "someone", "something", "sometime", "sometimes",
   "somewhere", "still", "such", "system", "take", "ten", "than", "that",
   "the", "their", "them", "themselves", "then", "thence", "there",
   "thereafter", "thereby", "therefore", "therein", "thereupon", "these",
   "they", "thick", "thin", "third", "this", "those", "though", "three",
   "through", "throughout", "thru", "thus", "to", "together", "too", "top",
   "toward", "towards", "twelve", "twenty", "two", "un", "under", "until",
   "up", "upon", "us", "very", "via", "was", "we", "well", "were", "what",
   "whatever", "when", "whence", "whenever", "where", "whereafter",
   "whereas", "whereby", "wherein", "whereupon", "wherever", "whether",
   "which", "while", "whither", "who", "whoever", "whole", "whom", "whose",
   "why", "will", "with", "within", "without", "would", "yet", "you",
   "your", "yours", "yourself", "yourselves"]

/-- The analyzer: lowercase (`str.lower`, per character), extract
word-character runs, keep tokens of length ≥ 2, drop English stop words. -/
def tokens (doc : String) : List String :=
  ((tokenizeAux (doc.data.map Char.toLower) []).filter (fun t => 2 ≤ t.length)).filter
    (fun t => t ∉ ENGLISH_STOP_WORDS)

/-! ## TF-IDF vectorization (`TfidfVectorizer` defaults: `norm="l2"`,
`smooth_idf=True`, `sublinear_tf=False`, here with `max_features=25000`) -/

/-- The `max_features=25000` vocabulary cap. -/
def maxFeatures : ℕ := 25000

/-- Raw term frequency of `t` in one document. -/
def tf (doc : String) (t : String) : ℕ := (tokens doc).count t

/-- Total corpus frequency of a term (used only by the `max_features` cap). -/
def corpusCount (corpus : List String) (t : String) : ℕ :=
  (corpus.map (fun d => tf d t)).sum

/-- Lexicographic strict order on character lists by code point (the order
Python string comparison uses). -/
def charsLt : List Char → List Char → Bool
  | [], [] => false
  | [], _ :: _ => true
  | _ :: _, [] => false
  | a :: as, b :: bs =>
    if a.toNat < b.toNat then true
    else if b.toNat < a.toNat then false
    else charsLt as bs

/-- Python `<=` on strings. -/
def strLe (a b : String) : Bool := !charsLt b.data a.data

/-- The fitted vocabulary: distinct analyzed terms; if more than
`max_features`, the terms with highest corpus frequency are kept; feature
indices are assigned in sorted (alphabetical) term order. -/
def vocabulary (corpus : List String) : List String :=
  let terms := ((corpus.map tokens).flatten).dedup
  let kept :=
    if terms.length ≤ maxFeatures then terms
    else (terms.insertionSort (fun a b =>
      corpusCount corpus b < corpusCount corpus a ∨
        (corpusCount corpus a = corpusCount corpus b ∧ strLe a b = true))).take maxFeatures
  kept.insertionSort (fun a b => strLe a b = true)

/-- Document frequency: the number of corpus documents containing `t`. -/
def df (corpus : List String) (t : String) : ℕ :=
  corpus.countP (fun d => decide (t ∈ tokens d))

/-- Smoothed inverse document frequency:
`ln((1 + n) / (1 + df)) + 1` (`smooth_idf=True`). -/
noncomputable def idf (corpus : List String) (t : String) : ℝ :=
  Real.log ((1 + corpus.length) / (1 + df corpus t)) + 1

/-- Unnormalized TF-IDF weight of term `t` in document `doc`. -/
noncomputable def rawTfidf (corpus : List String) (doc t : String) : ℝ :=
  (tf doc t : ℝ) * idf corpus t

/-- Euclidean norm of a document's unnormalized TF-IDF row (over the
vocabulary features, which are the stored entries of the sparse row). -/
noncomputable def rowNorm (corpus : List String) (doc : String) : ℝ :=
  Real.sqrt (((vocabulary corpus).map (fun t => rawTfidf corpus doc t ^ 2)).sum)

/-- One L2-normalized TF-IDF row as a function from terms to weights;
terms outside the vocabulary have no stored entry, hence weight 0.
(`sklearn.preprocessing.normalize` leaves an all-zero row all-zero, which the
Lean convention `x / 0 = 0` reproduces.) -/
noncomputable def tfidfRow (corpus : List String) (doc : String) : String → ℝ :=
  fun t => if t ∈ vocabulary corpus then rawTfidf corpus doc t / rowNorm corpus doc else 0

/-- The fitted sparse matrix: the shared vocabulary and one row per document. -/
structure TfidfMatrix where
  vocab : List String
  rows : List (String → ℝ)

/-- Vectorizer `TfidfVectorizer.fit_transform`: raises
`ValueError("empty vocabulary; perhaps the documents only contain stop words")`
when no document contributes a term, modelled as `Except.error`. -/
noncomputable def fitTransform (corpus : List String) : Except String TfidfMatrix :=
  if vocabulary corpus = [] then
    .error "empty vocabulary; perhaps the documents only contain stop words"
  else
    .ok ⟨vocabulary corpus, corpus.map (fun d => tfidfRow corpus d)⟩

/-- Row `i` of the matrix (an out-of-range index, which never occurs, reads
as the zero row). -/
def rowAt (m : TfidfMatrix) (i : ℕ) : String → ℝ :=
  m.rows.getD i (fun _ => 0)

open Classical in
/-- Count `matrix.getnnz(axis=1)[i]`: the number of stored non-zero entries of
row `i`. -/
noncomputable def nnzRow (m : TfidfMatrix) (i : ℕ) : ℕ :=
  (m.vocab.filter (fun t => rowAt m i t ≠ 0)).length

/-- Dot product of two vectors over the matrix's feature set. -/
noncomputable def dotVec (m : TfidfMatrix) (x y : String → ℝ) : ℝ :=
  ((m.vocab.map (fun t => x t * y t))).sum

/-- Euclidean norm of a vector over the matrix's feature set. -/
noncomputable def normVec (m : TfidfMatrix) (x : String → ℝ) : ℝ :=
  Real.sqrt ((m.vocab.map (fun t => x t ^ 2)).sum)

/-- Similarity `sklearn.metrics.pairwise.cosine_similarity` of two vectors: normalized
dot product; a zero vector is left zero by `normalize`, giving similarity 0,
which the Lean convention `x / 0 = 0` reproduces. -/
noncomputable def cosSim (m : TfidfMatrix) (x y : String → ℝ) : ℝ :=
  dotVec m x y / (normVec m x * normVec m y)

/-! ## User profile (`_build_user_profile`) -/

/-- The loop body of `_build_user_profile`: walk the interactions, skip those
whose video id is not in the index map, and collect `(row, weight)` pairs
(`row_mats` and `weights`). -/
noncomputable def profileRows (m : TfidfMatrix) (idxMap : String → Option ℕ) :
    List Interaction → List ((String → ℝ) × ℝ)
  | [] => []
  | it :: rest =>
    match idxMap it.video_id with
    | none => profileRows m idxMap rest
    | some idx => (rowAt m idx, interactionWeight it) :: profileRows m idxMap rest

/-- Total `float(weight_arr.sum())`: the total weight of the collected rows. -/
noncomputable def profileTotalWeight (m : TfidfMatrix) (idxMap : String → Option ℕ)
    (ints : List Interaction) : ℝ :=
  ((profileRows m idxMap ints).map Prod.snd).sum

open Classical in
/-- Source `_build_user_profile`: weighted centroid of the collected rows
(`csr_matrix(summed / total_weight)`), or `None` when no row was collected
(`if not row_mats`) or the total weight is non-positive
(`if total_weight <= 0`). -/
noncomputable def buildUserProfile (m : TfidfMatrix) (idxMap : String → Option ℕ)
    (ints : List Interaction) : Option (String → ℝ) :=
  if (profileRows m idxMap ints).isEmpty then none
  else if profileTotalWeight m idxMap ints ≤ 0 then none
  else some (fun t =>
    (((profileRows m idxMap ints).map (fun p => p.2 * p.1 t)).sum) /
      profileTotalWeight m idxMap ints)

/-! ## Catalog index (`idx_by_video_id`) -/

/-- Placeholder read for an out-of-range catalog index (never reached). -/
def defaultVideo : Video := ⟨"", "", "", none, 0⟩

/-- Read `videos[i]`. -/
def getV (videos : List Video) (i : ℕ) : Video := videos.getD i defaultVideo

/-- Accumulator pass of the dict comprehension
`{video.video_id: idx for idx, video in enumerate(videos)}`: a later
occurrence of the same id overwrites an earlier one. -/
def idxAux (vid : String) : List Video → ℕ → Option ℕ → Option ℕ
  | [], _, acc => acc
  | v :: rest, i, acc =>
    idxAux vid rest (i + 1) (if v.video_id = vid then some i else acc)

/-- Lookup `idx_by_video_id.get(vid)`. -/
def idxByVideoId (videos : List Video) (vid : String) : Option ℕ :=
  idxAux vid videos 0 none

/-! ## Scoring and ranking (`generate_recommendations` after profile build) -/

/-- Python `round(x, 6)`: round to 6 decimal places. (Python rounds exact
half-way cases to even; the model rounds them up — the two agree everywhere
except at exact odd multiples of `5e-7`, which no claim involves, and both
are monotone with the same endpoint behavior.) -/
noncomputable def round6 (x : ℝ) : ℝ := (round (x * 10 ^ 6) : ℤ) / 10 ^ 6

/-- Whether index `i` is overwritten to the `-1.0` sentinel by the loop
`for video_id in interacted_video_ids: scores[idx_by_video_id.get(video_id)] = -1.0`. -/
def excludedIdx (videos : List Video) (interacted : List String) (i : ℕ) : Bool :=
  interacted.any (fun vid => idxByVideoId videos vid == some i)

/-- The score array after the exclusion loop: cosine similarity of the
profile with row `i`, overwritten by `-1.0` at interacted indices. -/
noncomputable def scoresExcl (videos : List Video) (m : TfidfMatrix)
    (profile : String → ℝ) (interacted : List String) (i : ℕ) : ℝ :=
  if excludedIdx videos interacted i then -1 else cosSim m profile (rowAt m i)

/-- Key relation of the modelled stable ascending `np.argsort`: ascending
score, equal scores kept in index order. -/
def argsortRel (s : ℕ → ℝ) (i j : ℕ) : Prop :=
  s i < s j ∨ (s i = s j ∧ i ≤ j)

open Classical in
/-- Ranking `np.argsort(scores)[::-1]` (stable model): indices sorted ascending by
score then reversed. -/
noncomputable def rankedIndices (n : ℕ) (s : ℕ → ℝ) : List ℕ :=
  ((List.range n).insertionSort (argsortRel s)).reverse

open Classical in
/-- The selection loop: walk the ranked indices, stop once `k` items are
kept, skip negative scores, keep the rest (`cnt` is `len(items)`). -/
noncomputable def selectIdx (s : ℕ → ℝ) (k : ℕ) : List ℕ → ℕ → List ℕ
  | [], _ => []
  | i :: rest, cnt =>
    if k ≤ cnt then []
    else if s i < 0 then selectIdx s k rest cnt
    else i :: selectIdx s k rest (cnt + 1)

open Classical in
/-- Source `_keyword_overlap_reason`: element-wise product of profile and candidate,
up to 3 strongest strictly-positive overlap terms, formatted; `None` when the
overlap has no stored non-zero entry or no strictly positive term survives. -/
noncomputable def keywordOverlapReason (m : TfidfMatrix) (p c : String → ℝ) :
    Option String :=
  let terms := m.vocab.filter (fun t => p t * c t ≠ 0)
  if terms.isEmpty then none
  else
    let top := (terms.insertionSort (fun a b => p b * c b ≤ p a * c a)).take 3
    let kws := top.filter (fun t => 0 < p t * c t)
    if kws.isEmpty then none
    else some ("Overlapping keywords: " ++ String.intercalate ", " kws)

/-- Build one profile-path `RecommendationItem` for catalog index `i` with
raw score `sc`. -/
noncomputable def mkProfileItem (videos : List Video) (m : TfidfMatrix)
    (profile : String → ℝ) (i : ℕ) (sc : ℝ) : RecommendationItem :=
  { video_id := (getV videos i).video_id
    score := round6 sc
    reasons :=
      match keywordOverlapReason m profile (rowAt m i) with
      | none => ["Similar to your recent watched content"]
      | some r => ["Similar to your recent watched content", r] }

/-- The profile-similarity path of `generate_recommendations`: rank all
indices by the exclusion-adjusted scores, select up to `k` non-negative ones,
and build the items. -/
noncomputable def profilePathItems (videos : List Video) (m : TfidfMatrix)
    (profile : String → ℝ) (interacted : List String) (k : ℕ) :
    List RecommendationItem :=
  (selectIdx (scoresExcl videos m profile interacted) k
      (rankedIndices videos.length (scoresExcl videos m profile interacted)) 0).map
    (fun i => mkProfileItem videos m profile i (scoresExcl videos m profile interacted i))

/-! ## Cold start (`_cold_start_recommendations`) -/

/-- Source `recency_key`: `published_at` when present, else `created_at`. -/
def recencyKey (v : Video) : ℤ :=
  match v.published_at with
  | some t => t
  | none => v.created_at

/-- Python tuple comparison `<` on the composite `(nnz, recency)` key. -/
def keyLtPair (a b : ℕ × ℤ) : Prop :=
  a.1 < b.1 ∨ (a.1 = b.1 ∧ a.2 < b.2)

/-- The composite sort key `(int(nnz_arr[idx]), recency_key(videos[idx]))`. -/
noncomputable def coldKey (videos : List Video) (m : TfidfMatrix) (i : ℕ) : ℕ × ℤ :=
  (nnzRow m i, recencyKey (getV videos i))

/-- Candidate indices: catalog positions whose video was not interacted with. -/
def candidateIndices (videos : List Video) (interacted : List String) : List ℕ :=
  (List.range videos.length).filter (fun i => decide ((getV videos i).video_id ∉ interacted))

/-- Relation of the stable descending sort
`sorted(candidates, key=..., reverse=True)` on candidate indices: strictly
greater key first, equal keys kept in (ascending index) input order. -/
noncomputable def coldRel (videos : List Video) (m : TfidfMatrix) (i j : ℕ) : Prop :=
  keyLtPair (coldKey videos m j) (coldKey videos m i) ∨
    (coldKey videos m i = coldKey videos m j ∧ i ≤ j)

open Classical in
/-- Source `sorted_candidates`. -/
noncomputable def sortedCandidates (videos : List Video) (m : TfidfMatrix)
    (interacted : List String) : List ℕ :=
  (candidateIndices videos interacted).insertionSort (coldRel videos m)

/-- Maximum `max(int(nnz_arr[idx]) for idx in sorted_candidates)` (the generator is
non-empty whenever this is evaluated; the fold's base `0` is then absorbed). -/
noncomputable def coldMaxNnz (videos : List Video) (m : TfidfMatrix)
    (interacted : List String) : ℕ :=
  ((sortedCandidates videos m interacted).map (fun i => nnzRow m i)).foldl max 0

/-- Denominator `max_nnz = max(...) or 1`: Python `or` replaces a falsy `0` by `1`. -/
noncomputable def coldDenom (videos : List Video) (m : TfidfMatrix)
    (interacted : List String) : ℕ :=
  if coldMaxNnz videos m interacted = 0 then 1 else coldMaxNnz videos m interacted

/-- The two fixed cold-start reason strings. -/
def coldReasons : List String :=
  ["Cold start recommendation based on rich metadata",
   "Prioritized by metadata richness and recency"]

/-- Source `_cold_start_recommendations`. -/
noncomputable def coldStartRecommendations (videos : List Video) (m : TfidfMatrix)
    (interacted : List String) (k : ℕ) : List RecommendationItem :=
  if (candidateIndices videos interacted).isEmpty then []
  else
    ((sortedCandidates videos m interacted).take k).map (fun i =>
      { video_id := (getV videos i).video_id
        score := round6 ((nnzRow m i : ℝ) / (coldDenom videos m interacted : ℝ))
        reasons := coldReasons })

/-! ## Entry point (`generate_recommendations`) -/

/-- The filter building `positive_interactions`. -/
def positivesOf (videos : List Video) (interactions : List Interaction) :
    List Interaction :=
  interactions.filter (fun it =>
    decide (it.event_type ∈ POSITIVE_EVENTS) && (idxByVideoId videos it.video_id).isSome)

/-- Source `generate_recommendations(db, user_id, k)` with the collaborator reads
already materialized: `videos = crud.get_all_videos(db)` and
`interactions = crud.get_user_interactions(db, user_id)`. A raised
`ValueError` (empty vocabulary) is `Except.error`. -/
noncomputable def generateRecommendations (videos : List Video)
    (interactions : List Interaction) (k : ℕ) :
    Except String (List RecommendationItem) :=
  if videos.isEmpty then .ok []
  else
    match fitTransform (videos.map videoText) with
    | .error e => .error e
    | .ok m =>
      if (positivesOf videos interactions).isEmpty then
        .ok (coldStartRecommendations videos m (interactions.map (fun it => it.video_id)) k)
      else
        match buildUserProfile m (idxByVideoId videos) (positivesOf videos interactions) with
        | none =>
          .ok (coldStartRecommendations videos m (interactions.map (fun it => it.video_id)) k)
        | some profile =>
          .ok (profilePathItems videos m profile (interactions.map (fun it => it.video_id)) k)

/-- The item list of a successful run (an erroring run contributes no items). -/
def resultItems : Except String (List RecommendationItem) → List RecommendationItem
  | .ok l => l
  | .error _ => []

/-! ## Auxiliary lemmas: the catalog index map -/

theorem idxAux_some (vid : String) :
    ∀ (l : List Video) (i : ℕ) (acc : Option ℕ) (j : ℕ),
      idxAux vid l i acc = some j →
      acc = some j ∨
        ∃ k, k < l.length ∧ (l.getD k defaultVideo).video_id = vid ∧ j = i + k
  | [], _, _, _, h => Or.inl h
  | v :: rest, i, acc, j, h => by
    have h0 : idxAux vid rest (i + 1) (if v.video_id = vid then some i else acc) = some j := h
    rcases idxAux_some vid rest (i + 1) _ j h0 with h' | ⟨k, hk, hid, hj⟩
    · by_cases hv : v.video_id = vid
      · rw [if_pos hv] at h'
        have hij : i = j := by simpa using h'
        exact Or.inr ⟨0, Nat.succ_pos _, by simpa using hv, by omega⟩
      · rw [if_neg hv] at h'
        exact Or.inl h'
    · exact Or.inr ⟨k + 1, by simpa using hk, by simpa using hid, by omega⟩

theorem idxAux_no_match (vid : String) :
    ∀ (l : List Video) (i : ℕ) (acc : Option ℕ),
      (∀ v ∈ l, v.video_id ≠ vid) → idxAux vid l i acc = acc
  | [], _, _, _ => rfl
  | v :: rest, i, acc, h => by
    have hv : v.video_id ≠ vid := h v (List.mem_cons_self v rest)
    simp only [idxAux, if_neg hv]
    exact idxAux_no_match vid rest (i + 1) acc fun w hw => h w (List.mem_cons_of_mem v hw)

theorem idxAux_found (vid : String) :
    ∀ (l : List Video) (i : ℕ) (acc : Option ℕ) (k : ℕ),
      k < l.length → (l.getD k defaultVideo).video_id = vid →
      (∀ j, k < j → j < l.length → (l.getD j defaultVideo).video_id ≠ vid) →
      idxAux vid l i acc = some (i + k)
  | [], _, _, k, hk, _, _ => absurd hk (Nat.not_lt_zero k)
  | v :: rest, i, acc, 0, _, hid, hafter => by
    have hv : v.video_id = vid := by simpa using hid
    simp only [idxAux, if_pos hv]
    rw [idxAux_no_match vid rest (i + 1) (some i) ?_]
    · exact congrArg some (by omega)
    · intro w hw
      rcases List.mem_iff_getElem.1 hw with ⟨j, hj, rfl⟩
      have := hafter (j + 1) (Nat.succ_pos j) (by simpa using hj)
      simpa [List.getD_cons_succ, List.getD_eq_getElem?_getD, List.getElem?_eq_getElem hj]
        using this
  | v :: rest, i, acc, k + 1, hk, hid, hafter => by
    simp only [idxAux]
    rw [idxAux_found vid rest (i + 1) _ k (by simpa using hk) (by simpa using hid) ?_]
    · exact congrArg some (by omega)
    · intro j hj hjl
      have := hafter (j + 1) (by omega) (by simpa using hjl)
      simpa using this

theorem idxByVideoId_some_spec {videos : List Video} {vid : String} {j : ℕ}
    (h : idxByVideoId videos vid = some j) :
    j < videos.length ∧ (getV videos j).video_id = vid := by
  rcases idxAux_some vid videos 0 none j h with h' | ⟨k, hk, hid, hj⟩
  · exact absurd h' (by simp)
  · subst hj
    exact ⟨by simpa using hk, by simpa [getV] using hid⟩

/-- With unique catalog identifiers, looking up an index's own id finds it. -/
theorem idxByVideoId_eq_some {videos : List Video}
    (hnd : (videos.map Video.video_id).Nodup) {j : ℕ} (hj : j < videos.length) :
    idxByVideoId videos ((getV videos j).video_id) = some j := by
  have hinj : ∀ (a b : ℕ) (ha : a < videos.length) (hb : b < videos.length),
      (videos.get ⟨a, ha⟩).video_id = (videos.get ⟨b, hb⟩).video_id → a = b := by
    intro a b ha hb hab
    have h : (⟨a, by simpa using ha⟩ : Fin (videos.map Video.video_id).length) =
        ⟨b, by simpa using hb⟩ :=
      List.nodup_iff_injective_get.1 hnd (by simpa using hab)
    exact congrArg Fin.val h
  have h0 := idxAux_found ((getV videos j).video_id) videos 0 none j hj rfl ?_
  · simpa using h0
  · intro i hji hi hcontra
    have hgj : (getV videos j).video_id = (videos.get ⟨j, hj⟩).video_id := by
      simp [getV, List.getD_eq_getElem?_getD, List.getElem?_eq_getElem hj]
    have hgi : (getV videos i).video_id = (videos.get ⟨i, hi⟩).video_id := by
      simp [getV, List.getD_eq_getElem?_getD, List.getElem?_eq_getElem hi]
    have hci : (getV videos i).video_id = (getV videos j).video_id := hcontra
    have : i = j := hinj i j hi hj (by rw [← hgi, ← hgj]; exact hci)
    omega

/-- With unique catalog identifiers, the `-1.0` sentinel hits index `i`
exactly when the video at `i` was interacted with. -/
theorem excludedIdx_true_iff {videos : List Video}
    (hnd : (videos.map Video.video_id).Nodup) (interacted : List String) {i : ℕ}
    (hi : i < videos.length) :
    excludedIdx videos interacted i = true ↔ (getV videos i).video_id ∈ interacted := by
  simp only [excludedIdx, List.any_eq_true, beq_iff_eq]
  constructor
  · rintro ⟨vid, hmem, hfind⟩
    have hspec := idxByVideoId_some_spec hfind
    rw [hspec.2]
    exact hmem
  · intro hmem
    exact ⟨(getV videos i).video_id, hmem, idxByVideoId_eq_some hnd hi⟩

/-! ## Auxiliary lemmas: the selection loop -/

open Classical in
/-- The selection loop equals "filter non-negative scores, then take what is
still missing to reach `k`". -/
theorem selectIdx_eq (s : ℕ → ℝ) (k : ℕ) :
    ∀ (l : List ℕ) (cnt : ℕ),
      selectIdx s k l cnt = (l.filter (fun i => decide (0 ≤ s i))).take (k - cnt)
  | [], _ => by simp [selectIdx]
  | i :: rest, cnt => by
    by_cases hk : k ≤ cnt
    · rw [selectIdx, if_pos hk, Nat.sub_eq_zero_of_le hk, List.take_zero]
    · by_cases hs : s i < 0
      · have hd : (decide (0 ≤ s i)) = false := decide_eq_false (not_le.2 hs)
        rw [selectIdx, if_neg hk, if_pos hs, List.filter_cons_of_neg (by simp [hd]),
          selectIdx_eq s k rest cnt]
      · have hd : (decide (0 ≤ s i)) = true := decide_eq_true (not_lt.1 hs)
        rw [selectIdx, if_neg hk, if_neg hs, List.filter_cons_of_pos (by simp [hd]),
          selectIdx_eq s k rest (cnt + 1)]
        have hcnt : k - cnt = (k - (cnt + 1)) + 1 := by omega
        rw [hcnt, List.take_succ_cons]

theorem mem_selectIdx {s : ℕ → ℝ} {k : ℕ} {l : List ℕ} {cnt i : ℕ}
    (h : i ∈ selectIdx s k l cnt) : i ∈ l ∧ 0 ≤ s i := by
  rw [selectIdx_eq] at h
  have h1 := (List.take_sublist _ _).subset h
  have h2 := List.mem_filter.1 h1
  exact ⟨(List.filter_sublist l).subset h1, by simpa using h2.2⟩

theorem selectIdx_sublist (s : ℕ → ℝ) (k : ℕ) (l : List ℕ) (cnt : ℕ) :
    List.Sublist (selectIdx s k l cnt) l := by
  rw [selectIdx_eq]
  exact (List.take_sublist _ _).trans (List.filter_sublist l)

theorem length_selectIdx_le (s : ℕ → ℝ) (k : ℕ) (l : List ℕ) :
    (selectIdx s k l 0).length ≤ k := by
  rw [selectIdx_eq]
  exact le_trans (List.length_take_le (k - 0) _) (by omega)

/-! ## Auxiliary lemmas: ranking order -/

theorem argsortRel_total (s : ℕ → ℝ) : ∀ i j, argsortRel s i j ∨ argsortRel s j i := by
  intro i j
  rcases lt_trichotomy (s i) (s j) with h | h | h
  · exact Or.inl (Or.inl h)
  · rcases Nat.le_total i j with hij | hij
    · exact Or.inl (Or.inr ⟨h, hij⟩)
    · exact Or.inr (Or.inr ⟨h.symm, hij⟩)
  · exact Or.inr (Or.inl h)

theorem argsortRel_trans (s : ℕ → ℝ) :
    ∀ i j l, argsortRel s i j → argsortRel s j l → argsortRel s i l := by
  rintro i j l (h1 | ⟨he1, hi1⟩) (h2 | ⟨he2, hi2⟩)
  · exact Or.inl (h1.trans h2)
  · exact Or.inl (he2 ▸ h1)
  · exact Or.inl (he1 ▸ h2)
  · exact Or.inr ⟨he1.trans he2, hi1.trans hi2⟩

open Classical in
theorem rankedIndices_pairwise (n : ℕ) (s : ℕ → ℝ) :
    (rankedIndices n s).Pairwise (fun i j => argsortRel s j i) := by
  unfold rankedIndices
  refine List.pairwise_reverse.2 ?_
  haveI : IsTotal ℕ (argsortRel s) := ⟨argsortRel_total s⟩
  haveI : IsTrans ℕ (argsortRel s) := ⟨argsortRel_trans s⟩
  exact List.sorted_insertionSort (argsortRel s) (List.range n)

open Classical in
theorem rankedIndices_perm (n : ℕ) (s : ℕ → ℝ) :
    List.Perm (rankedIndices n s) (List.range n) :=
  (List.reverse_perm _).trans (List.perm_insertionSort _ _)

theorem mem_rankedIndices {n : ℕ} {s : ℕ → ℝ} {i : ℕ} :
    i ∈ rankedIndices n s ↔ i < n := by
  rw [(rankedIndices_perm n s).mem_iff, List.mem_range]

theorem rankedIndices_nodup (n : ℕ) (s : ℕ → ℝ) : (rankedIndices n s).Nodup :=
  (rankedIndices_perm n s).nodup_iff.2 (List.nodup_range n)

/-! ## Auxiliary lemmas: cold-start order -/

theorem coldRel_total (videos : List Video) (m : TfidfMatrix) :
    ∀ i j, coldRel videos m i j ∨ coldRel videos m j i := by
  intro i j
  unfold coldRel keyLtPair
  rcases lt_trichotomy (coldKey videos m i).1 (coldKey videos m j).1 with h | h | h
  · exact Or.inr (Or.inl (Or.inl h))
  · rcases lt_trichotomy (coldKey videos m i).2 (coldKey videos m j).2 with h2 | h2 | h2
    · exact Or.inr (Or.inl (Or.inr ⟨h, h2⟩))
    · have he : coldKey videos m i = coldKey videos m j := Prod.ext h h2
      rcases Nat.le_total i j with hij | hij
      · exact Or.inl (Or.inr ⟨he, hij⟩)
      · exact Or.inr (Or.inr ⟨he.symm, hij⟩)
    · exact Or.inl (Or.inl (Or.inr ⟨h.symm, h2⟩))
  · exact Or.inl (Or.inl (Or.inl h))

theorem keyLtPair_trans {a b c : ℕ × ℤ} (h1 : keyLtPair a b) (h2 : keyLtPair b c) :
    keyLtPair a c := by
  rcases h1 with h1 | ⟨he1, hl1⟩ <;> rcases h2 with h2 | ⟨he2, hl2⟩
  · exact Or.inl (h1.trans h2)
  · exact Or.inl (he2 ▸ h1)
  · exact Or.inl (he1 ▸ h2)
  · exact Or.inr ⟨he1.trans he2, hl1.trans hl2⟩

theorem coldRel_trans (videos : List Video) (m : TfidfMatrix) :
    ∀ i j l, coldRel videos m i j → coldRel videos m j l → coldRel videos m i l := by
  rintro i j l (h1 | ⟨he1, hi1⟩) (h2 | ⟨he2, hi2⟩)
  · exact Or.inl (keyLtPair_trans h2 h1)
  · exact Or.inl (he2 ▸ h1)
  · exact Or.inl (he1 ▸ h2)
  · exact Or.inr ⟨he1.trans he2, hi1.trans hi2⟩

open Classical in
theorem sortedCandidates_pairwise (videos : List Video) (m : TfidfMatrix)
    (interacted : List String) :
    (sortedCandidates videos m interacted).Pairwise (coldRel videos m) := by
  unfold sortedCandidates
  haveI : IsTotal ℕ (coldRel videos m) := ⟨coldRel_total videos m⟩
  haveI : IsTrans ℕ (coldRel videos m) := ⟨coldRel_trans videos m⟩
  exact List.sorted_insertionSort (coldRel videos m) _

open Classical in
theorem sortedCandidates_perm (videos : List Video) (m : TfidfMatrix)
    (interacted : List String) :
    List.Perm (sortedCandidates videos m interacted) (candidateIndices videos interacted) :=
  List.perm_insertionSort _ _

theorem mem_candidateIndices {videos : List Video} {interacted : List String} {i : ℕ} :
    i ∈ candidateIndices videos interacted ↔
      i < videos.length ∧ (getV videos i).video_id ∉ interacted := by
  simp [candidateIndices, List.mem_filter]

/-! ## Auxiliary lemmas: rounding -/

theorem round6_mono {x y : ℝ} (h : x ≤ y) : round6 x ≤ round6 y := by
  unfold round6
  have hr : round (x * 10 ^ 6) ≤ round (y * 10 ^ 6) := by
    rw [round_eq, round_eq]
    exact Int.floor_le_floor (by nlinarith)
  have h10 : (0 : ℝ) < 10 ^ 6 := by norm_num
  exact (div_le_div_iff_of_pos_right h10).2 (Int.cast_le.2 hr)

theorem round6_zero : round6 0 = 0 := by
  simp [round6]

theorem round6_one : round6 1 = 1 := by
  unfold round6
  have h : ((1 : ℝ) * 10 ^ 6) = ((10 ^ 6 : ℤ) : ℝ) := by norm_num
  rw [h, round_intCast]
  norm_num

theorem round6_nonneg {x : ℝ} (h : 0 ≤ x) : 0 ≤ round6 x := by
  have := round6_mono h
  rwa [round6_zero] at this

theorem round6_le_one {x : ℝ} (h : x ≤ 1) : round6 x ≤ 1 := by
  have := round6_mono h
  rwa [round6_one] at this

/-! ## Auxiliary lemmas: weights are at least 1 -/

theorem one_le_eventBaseWeight (e : String) : 1 ≤ eventBaseWeight e := by
  unfold eventBaseWeight
  split_ifs <;> norm_num

theorem one_le_watchWeight (ws : Option ℤ) : 1 ≤ watchWeight ws := by
  cases ws with
  | none => norm_num [watchWeight]
  | some s =>
    simp only [watchWeight]
    split_ifs with hs
    · norm_num
    · have hsz : (1 : ℤ) ≤ s := by omega
      have hs1 : (1 : ℝ) ≤ 1 + (s : ℝ) := by
        have h1 : (1 : ℝ) ≤ (s : ℝ) := by exact_mod_cast hsz
        linarith
      have hlog : 0 ≤ Real.log (1 + (s : ℝ)) := Real.log_nonneg hs1
      have hmin : 0 ≤ min (Real.log (1 + (s : ℝ))) 5 := le_min hlog (by norm_num)
      norm_num
      linarith

theorem one_le_interactionWeight (it : Interaction) : 1 ≤ interactionWeight it := by
  unfold interactionWeight
  have h1 := one_le_eventBaseWeight it.event_type
  have h2 := one_le_watchWeight it.watch_seconds
  nlinarith

/-! ## Auxiliary lemmas: cosine similarity is at most 1 -/

theorem dotVec_le_norms (m : TfidfMatrix) (h : m.vocab.Nodup) (x y : String → ℝ) :
    dotVec m x y ≤ normVec m x * normVec m y := by
  unfold dotVec normVec
  have h1 : ((m.vocab.map fun t => x t * y t)).sum = ∑ t in m.vocab.toFinset, x t * y t :=
    (List.sum_toFinset _ h).symm
  have h2 : ((m.vocab.map fun t => x t ^ 2)).sum = ∑ t in m.vocab.toFinset, x t ^ 2 :=
    (List.sum_toFinset _ h).symm
  have h3 : ((m.vocab.map fun t => y t ^ 2)).sum = ∑ t in m.vocab.toFinset, y t ^ 2 :=
    (List.sum_toFinset _ h).symm
  rw [h1, h2, h3]
  exact Real.sum_mul_le_sqrt_mul_sqrt _ _ _

theorem cosSim_le_one (m : TfidfMatrix) (h : m.vocab.Nodup) (x y : String → ℝ) :
    cosSim m x y ≤ 1 := by
  unfold cosSim
  rcases eq_or_ne (normVec m x * normVec m y) 0 with h0 | h0
  · rw [h0, div_zero]
    exact zero_le_one
  · have hnn : 0 ≤ normVec m x * normVec m y :=
      mul_nonneg (Real.sqrt_nonneg _) (Real.sqrt_nonneg _)
    have hpos : 0 < normVec m x * normVec m y := lt_of_le_of_ne hnn (Ne.symm h0)
    exact (div_le_one hpos).2 (dotVec_le_norms m h x y)

/-! ## Auxiliary lemmas: fold-max and the cold-start denominator -/

theorem le_foldl_max_init : ∀ (l : List ℕ) (a : ℕ), a ≤ l.foldl max a
  | [], _ => le_refl _
  | b :: l, a =>
    le_trans (le_max_left a b) (le_foldl_max_init l (max a b))

theorem le_foldl_max_of_mem : ∀ {l : List ℕ} {x : ℕ} (a : ℕ), x ∈ l → x ≤ l.foldl max a := by
  intro l
  induction l with
  | nil => intro x a hx; cases hx
  | cons b l ih =>
    intro x a hx
    rcases List.mem_cons.1 hx with rfl | hx
    · exact le_trans (le_max_right a x) (le_foldl_max_init l (max a x))
    · exact ih (max a b) hx

theorem nnz_le_coldMaxNnz {videos : List Video} {m : TfidfMatrix}
    {interacted : List String} {i : ℕ} (h : i ∈ sortedCandidates videos m interacted) :
    nnzRow m i ≤ coldMaxNnz videos m interacted :=
  le_foldl_max_of_mem 0 (List.mem_map_of_mem _ h)

theorem one_le_coldDenom (videos : List Video) (m : TfidfMatrix)
    (interacted : List String) : 1 ≤ coldDenom videos m interacted := by
  unfold coldDenom
  split_ifs with h
  · exact le_refl 1
  · omega

theorem coldScore_unit {videos : List Video} {m : TfidfMatrix}
    {interacted : List String} {i : ℕ} (h : i ∈ sortedCandidates videos m interacted) :
    0 ≤ (nnzRow m i : ℝ) / (coldDenom videos m interacted : ℝ) ∧
      (nnzRow m i : ℝ) / (coldDenom videos m interacted : ℝ) ≤ 1 := by
  have hd : (0 : ℝ) < (coldDenom videos m interacted : ℝ) := by
    have := one_le_coldDenom videos m interacted
    exact_mod_cast Nat.lt_of_lt_of_le Nat.zero_lt_one this
  constructor
  · exact div_nonneg (Nat.cast_nonneg _) (le_of_lt hd)
  · rw [div_le_one hd]
    have hle := nnz_le_coldMaxNnz h
    unfold coldDenom
    split_ifs with h0
    · have : nnzRow m i = 0 := by omega
      simp [this]
    · exact_mod_cast hle

/-! ## Auxiliary lemmas: the fitted vocabulary and row supports -/

theorem vocabulary_nodup (corpus : List String) : (vocabulary corpus).Nodup := by
  unfold vocabulary
  have hnd : (((corpus.map tokens).flatten).dedup).Nodup := List.nodup_dedup _
  by_cases hle : (((corpus.map tokens).flatten).dedup).length ≤ maxFeatures
  · simp only [if_pos hle]
    exact (List.perm_insertionSort _ _).nodup_iff.2 hnd
  · simp only [if_neg hle]
    refine (List.perm_insertionSort _ _).nodup_iff.2 ?_
    exact (((List.perm_insertionSort _ _).nodup_iff.2 hnd)).sublist (List.take_sublist _ _)

theorem df_le_length (corpus : List String) (t : String) : df corpus t ≤ corpus.length :=
  List.countP_le_length _

theorem one_le_idf (corpus : List String) (t : String) : 1 ≤ idf corpus t := by
  unfold idf
  have hdf : (df corpus t : ℝ) ≤ (corpus.length : ℝ) := by
    exact_mod_cast df_le_length corpus t
  have hpos : (0 : ℝ) < 1 + (df corpus t : ℝ) := by positivity
  have h1 : (1 : ℝ) ≤ (1 + (corpus.length : ℝ)) / (1 + (df corpus t : ℝ)) := by
    rw [one_le_div hpos]
    linarith
  have := Real.log_nonneg h1
  linarith

theorem rawTfidf_nonneg (corpus : List String) (doc t : String) :
    0 ≤ rawTfidf corpus doc t :=
  mul_nonneg (Nat.cast_nonneg _) (le_trans zero_le_one (one_le_idf corpus t))

theorem rawTfidf_pos (corpus : List String) (doc t : String) (h : tf doc t ≠ 0) :
    0 < rawTfidf corpus doc t := by
  unfold rawTfidf
  have h1 : (0 : ℝ) < (tf doc t : ℝ) := by
    exact_mod_cast Nat.pos_of_ne_zero h
  exact mul_pos h1 (lt_of_lt_of_le zero_lt_one (one_le_idf corpus t))

theorem rowNorm_pos {corpus : List String} {doc t : String}
    (hmem : t ∈ vocabulary corpus) (h : tf doc t ≠ 0) : 0 < rowNorm corpus doc := by
  unfold rowNorm
  refine Real.sqrt_pos.2 ?_
  have hx : rawTfidf corpus doc t ^ 2 ∈ (vocabulary corpus).map
      (fun u => rawTfidf corpus doc u ^ 2) :=
    List.mem_map_of_mem _ hmem
  have hnn : ∀ x ∈ (vocabulary corpus).map (fun u => rawTfidf corpus doc u ^ 2), (0 : ℝ) ≤ x := by
    intro x hxm
    rcases List.mem_map.1 hxm with ⟨u, _, rfl⟩
    exact sq_nonneg _
  have hpos : 0 < rawTfidf corpus doc t ^ 2 := pow_pos (rawTfidf_pos corpus doc t h) 2
  exact lt_of_lt_of_le hpos (List.single_le_sum hnn _ hx)

theorem tfidfRow_eq_zero {corpus : List String} {doc t : String} (h : tf doc t = 0) :
    tfidfRow corpus doc t = 0 := by
  unfold tfidfRow
  split_ifs with hmem
  · unfold rawTfidf
    rw [h]
    simp
  · rfl

theorem tfidfRow_pos {corpus : List String} {doc t : String}
    (hmem : t ∈ vocabulary corpus) (h : tf doc t ≠ 0) : 0 < tfidfRow corpus doc t := by
  unfold tfidfRow
  rw [if_pos hmem]
  exact div_pos (rawTfidf_pos corpus doc t h) (rowNorm_pos hmem h)

theorem rowAt_fitted {corpus : List String} {i : ℕ} (hi : i < corpus.length)
    (v : List String) :
    rowAt ⟨v, corpus.map (fun d => tfidfRow corpus d)⟩ i =
      tfidfRow corpus (corpus.getD i "") := by
  unfold rowAt
  simp [List.getD_eq_getElem?_getD, List.getElem?_map, List.getElem?_eq_getElem hi]

open Classical in
/-- Count `getnnz` of a fitted row counts exactly the vocabulary terms occurring in
the document: every stored entry of a TF-IDF row is strictly positive. -/
theorem nnzRow_fitted (corpus : List String) {i : ℕ} (hi : i < corpus.length) :
    nnzRow ⟨vocabulary corpus, corpus.map (fun d => tfidfRow corpus d)⟩ i =
      ((vocabulary corpus).filter
        (fun t => decide (tf (corpus.getD i "") t ≠ 0))).length := by
  unfold nnzRow
  refine congrArg List.length (List.filter_congr ?_)
  intro t ht
  rw [rowAt_fitted hi]
  set d := corpus.getD i "" with hd
  refine decide_eq_decide.2 ?_
  by_cases htf : tf d t = 0
  · simp [tfidfRow_eq_zero htf, htf]
  · have hpos := tfidfRow_pos ht htf
    constructor
    · intro _
      exact htf
    · intro _
      exact ne_of_gt hpos

/-! ## Auxiliary lemmas: the profile builder -/

theorem profileRows_snd_ge_one (m : TfidfMatrix) (idxMap : String → Option ℕ) :
    ∀ (ints : List Interaction), ∀ p ∈ profileRows m idxMap ints, 1 ≤ p.2
  | [], _, hp => by cases hp
  | it :: rest, p, hp => by
    rw [profileRows] at hp
    rcases hidx : idxMap it.video_id with _ | idx
    · rw [hidx] at hp
      exact profileRows_snd_ge_one m idxMap rest p hp
    · rw [hidx] at hp
      rcases List.mem_cons.1 hp with rfl | hp
      · exact one_le_interactionWeight it
      · exact profileRows_snd_ge_one m idxMap rest p hp

theorem profileRows_ne_nil {m : TfidfMatrix} {idxMap : String → Option ℕ}
    {it : Interaction} {rest : List Interaction}
    (h : (idxMap it.video_id).isSome) : profileRows m idxMap (it :: rest) ≠ [] := by
  rcases Option.isSome_iff_exists.1 h with ⟨idx, hidx⟩
  rw [profileRows, hidx]
  exact List.cons_ne_nil _ _

theorem profileTotalWeight_pos {m : TfidfMatrix} {idxMap : String → Option ℕ}
    {ints : List Interaction} (hne : profileRows m idxMap ints ≠ []) :
    0 < profileTotalWeight m idxMap ints := by
  unfold profileTotalWeight
  rcases List.exists_cons_of_ne_nil hne with ⟨p, l, hl⟩
  rw [hl]
  have hnn : ∀ x ∈ (p :: l).map Prod.snd, (0 : ℝ) ≤ x := by
    intro x hx
    rcases List.mem_map.1 hx with ⟨q, hq, rfl⟩
    exact le_trans zero_le_one (profileRows_snd_ge_one m idxMap ints q (hl ▸ hq))
  have hmem : p.2 ∈ (p :: l).map Prod.snd := List.mem_map_of_mem _ (List.mem_cons_self p l)
  have h1 : 1 ≤ p.2 := profileRows_snd_ge_one m idxMap ints p (hl ▸ List.mem_cons_self p l)
  have := List.single_le_sum hnn _ hmem
  linarith

theorem buildUserProfile_eq_some {m : TfidfMatrix} {idxMap : String → Option ℕ}
    {ints : List Interaction} (hne : profileRows m idxMap ints ≠ []) :
    buildUserProfile m idxMap ints =
      some (fun t => (((profileRows m idxMap ints).map (fun p => p.2 * p.1 t)).sum) /
        profileTotalWeight m idxMap ints) := by
  unfold buildUserProfile
  rw [if_neg (by simpa [List.isEmpty_iff] using hne),
    if_neg (not_le.2 (profileTotalWeight_pos hne))]

theorem buildUserProfile_none_of_nonpos (m : TfidfMatrix) (idxMap : String → Option ℕ)
    (ints : List Interaction) (h : profileTotalWeight m idxMap ints ≤ 0) :
    buildUserProfile m idxMap ints = none := by
  unfold buildUserProfile
  by_cases he : (profileRows m idxMap ints).isEmpty
  · rw [if_pos he]
  · rw [if_neg he, if_pos h]

theorem buildUserProfile_some_total_pos {m : TfidfMatrix} {idxMap : String → Option ℕ}
    {ints : List Interaction} {p : String → ℝ}
    (h : buildUserProfile m idxMap ints = some p) :
    0 < profileTotalWeight m idxMap ints := by
  by_contra hc
  rw [buildUserProfile_none_of_nonpos m idxMap ints (not_lt.1 hc)] at h
  cases h

/-! ## Spec-side definitions for the refinement claim C5 -/

/-- Written from the spec's words: `base_weight`: watch = 2.0, click = 1.0,
like = 3.0 (the spec assigns no weight to other kinds; 0 marks that silence). -/
def specBaseWeight (e : String) : ℝ :=
  if e = "watch" then 2.0 else if e = "click" then 1.0 else if e = "like" then 3.0 else 0

/-- Written from the spec's words: `watch_weight`: 1.0 when the watch duration
is absent or non-positive, otherwise `1.0 + min(ln(1 + watch_seconds), 5.0)`. -/
noncomputable def specWatchWeight : Option ℤ → ℝ
  | none => 1.0
  | some s => if s ≤ 0 then 1.0 else 1.0 + min (Real.log (1 + (s : ℝ))) 5.0

theorem one_le_profileTotalWeight {m : TfidfMatrix} {idxMap : String → Option ℕ}
    {ints : List Interaction} (hne : profileRows m idxMap ints ≠ []) :
    1 ≤ profileTotalWeight m idxMap ints := by
  unfold profileTotalWeight
  rcases List.exists_cons_of_ne_nil hne with ⟨p, l, hl⟩
  rw [hl]
  have hnn : ∀ x ∈ (p :: l).map Prod.snd, (0 : ℝ) ≤ x := by
    intro x hx
    rcases List.mem_map.1 hx with ⟨q, hq, rfl⟩
    exact le_trans zero_le_one (profileRows_snd_ge_one m idxMap ints q (hl ▸ hq))
  have hmem : p.2 ∈ (p :: l).map Prod.snd := List.mem_map_of_mem _ (List.mem_cons_self p l)
  have h1 : 1 ≤ p.2 := profileRows_snd_ge_one m idxMap ints p (hl ▸ List.mem_cons_self p l)
  have := List.single_le_sum hnn _ hmem
  linarith

/-! ## Claim C5 -/

/-- C5: every interaction contributing to the user profile has weight
`base_weight(event_kind) * watch_weight(watch_seconds)` with base weights
watch = 2.0, click = 1.0, like = 3.0, and `watch_weight(s)` equal to 1.0 when
`s` is absent or non-positive and `1.0 + min(ln(1 + s), 5.0)` otherwise. -/
theorem claim_C5 (it : Interaction) (h : it.event_type ∈ POSITIVE_EVENTS) :
    interactionWeight it = specBaseWeight it.event_type * specWatchWeight it.watch_seconds := by
  have hw : watchWeight it.watch_seconds = specWatchWeight it.watch_seconds := by
    cases it.watch_seconds <;> rfl
  have hb : eventBaseWeight it.event_type = specBaseWeight it.event_type := by
    simp only [POSITIVE_EVENTS, List.mem_cons, List.not_mem_nil, or_false] at h
    rcases h with h | h | h <;> rw [h] <;> norm_num [eventBaseWeight, specBaseWeight]
  rw [interactionWeight, hb, hw]

theorem claim_C5_witness :
    (⟨"u", "v", "like", some 10⟩ : Interaction).event_type ∈ POSITIVE_EVENTS ∧
      interactionWeight ⟨"u", "v", "like", some 10⟩ =
        specBaseWeight "like" * specWatchWeight (some 10) :=
  ⟨by decide, claim_C5 ⟨"u", "v", "like", some 10⟩ (by decide)⟩

/-! ## Claim C9 -/

/-- C9: holding the event kind fixed, a longer watch duration never decreases
the interaction's contribution weight. -/
theorem claim_C9 (u v e : String) {s t : ℤ} (h : s ≤ t) :
    interactionWeight ⟨u, v, e, some s⟩ ≤ interactionWeight ⟨u, v, e, some t⟩ := by
  unfold interactionWeight
  have hb : 0 ≤ eventBaseWeight e := le_trans zero_le_one (one_le_eventBaseWeight e)
  refine mul_le_mul_of_nonneg_left ?_ hb
  show watchWeight (some s) ≤ watchWeight (some t)
  simp only [watchWeight]
  split_ifs with h1 h2 h2
  · exact le_refl _
  · have hsz : (1 : ℤ) ≤ t := by omega
    have ht1 : (1 : ℝ) ≤ 1 + (t : ℝ) := by
      have : (1 : ℝ) ≤ (t : ℝ) := by exact_mod_cast hsz
      linarith
    have hmin : 0 ≤ min (Real.log (1 + (t : ℝ))) 5 :=
      le_min (Real.log_nonneg ht1) (by norm_num)
    linarith
  · omega
  · have hs1 : (0 : ℝ) < 1 + (s : ℝ) := by
      have hsz : (1 : ℤ) ≤ s := by omega
      have : (1 : ℝ) ≤ (s : ℝ) := by exact_mod_cast hsz
      linarith
    have hst : (1 : ℝ) + (s : ℝ) ≤ 1 + (t : ℝ) := by
      have : (s : ℝ) ≤ (t : ℝ) := by exact_mod_cast h
      linarith
    have hlog := Real.log_le_log hs1 hst
    have := min_le_min hlog (le_refl (5 : ℝ))
    linarith

theorem claim_C9_witness :
    (1 : ℤ) ≤ 2 ∧
      interactionWeight ⟨"u", "v", "watch", some 1⟩ ≤
        interactionWeight ⟨"u", "v", "watch", some 2⟩ :=
  ⟨by norm_num, claim_C9 "u" "v" "watch" (by norm_num)⟩

/-! ## Claim C10 -/

/-- C10: every interaction weight is at least 1, so for a non-empty
interaction list whose video ids all resolve in the index map the total weight
is at least 1, the non-positive-total branch of `_build_user_profile` is
unreachable and the profile is never `None`; consequently the `profile is
None` cold-start trigger in `generate_recommendations` is never taken. -/
theorem claim_C10 (m : TfidfMatrix) (idxMap : String → Option ℕ)
    (ints : List Interaction) (hne : ints ≠ [])
    (hmap : ∀ it ∈ ints, (idxMap it.video_id).isSome) :
    (∀ it : Interaction, 1 ≤ interactionWeight it) ∧
    1 ≤ profileTotalWeight m idxMap ints ∧
    ¬ profileTotalWeight m idxMap ints ≤ 0 ∧
    (buildUserProfile m idxMap ints).isSome = true ∧
    ∀ (videos : List Video) (interactions : List Interaction) (m2 : TfidfMatrix),
      positivesOf videos interactions ≠ [] →
      (buildUserProfile m2 (idxByVideoId videos) (positivesOf videos interactions)).isSome
        = true := by
  have hrows : profileRows m idxMap ints ≠ [] := by
    rcases List.exists_cons_of_ne_nil hne with ⟨it, rest, hl⟩
    subst hl
    exact profileRows_ne_nil (hmap it (List.mem_cons_self it rest))
  have htotal : 1 ≤ profileTotalWeight m idxMap ints := one_le_profileTotalWeight hrows
  refine ⟨one_le_interactionWeight, htotal, by linarith, ?_, ?_⟩
  · rw [buildUserProfile_eq_some hrows]
    rfl
  · intro videos interactions m2 hne2
    have hmap2 : ∀ it ∈ positivesOf videos interactions,
        ((idxByVideoId videos) it.video_id).isSome := by
      intro it hit
      have := List.mem_filter.1 hit
      have h2 := this.2
      simp only [Bool.and_eq_true] at h2
      exact h2.2
    have hrows2 : profileRows m2 (idxByVideoId videos) (positivesOf videos interactions) ≠ [] := by
      rcases List.exists_cons_of_ne_nil hne2 with ⟨it, rest, hl⟩
      rw [hl]
      rw [hl] at hmap2
      exact profileRows_ne_nil (hmap2 it (List.mem_cons_self it rest))
    rw [buildUserProfile_eq_some hrows2]
    rfl

theorem claim_C10_witness :
    (buildUserProfile ⟨[], []⟩ (fun _ => some 0) [⟨"u", "v", "watch", none⟩]).isSome = true :=
  (claim_C10 ⟨[], []⟩ (fun _ => some 0) [⟨"u", "v", "watch", none⟩]
    (by simp) (by simp)).2.2.2.1

/-! ## Claim C4 (corrected) -/

/-- C4 counterexample: with an empty interaction list the total interaction
weight is zero, yet `_build_user_profile` returns `None` — it does not divide
the summed vector by the defaulted denominator 1 as the claim states. -/
theorem claim_C4_counterexample :
    profileTotalWeight ⟨[], []⟩ (fun _ => none) [] = 0 ∧
      buildUserProfile ⟨[], []⟩ (fun _ => none) [] = none :=
  ⟨rfl, rfl⟩

/-- C4 amended: the cold-start normalization defaults its denominator to 1
when the maximum non-zero-term count is 0 (and the denominator is always at
least 1), while the user-profile builder guards a non-positive total weight by
returning the no-profile sentinel `None` — whenever it does divide, the total
weight is strictly positive. -/
theorem claim_C4_amended (m : TfidfMatrix) (idxMap : String → Option ℕ)
    (ints : List Interaction) (videos : List Video) (mc : TfidfMatrix)
    (interacted : List String) :
    (profileTotalWeight m idxMap ints ≤ 0 → buildUserProfile m idxMap ints = none) ∧
    (∀ p, buildUserProfile m idxMap ints = some p → 0 < profileTotalWeight m idxMap ints) ∧
    1 ≤ coldDenom videos mc interacted ∧
    (coldMaxNnz videos mc interacted = 0 → coldDenom videos mc interacted = 1) := by
  refine ⟨buildUserProfile_none_of_nonpos m idxMap ints,
    fun p h => buildUserProfile_some_total_pos h, one_le_coldDenom _ _ _, fun h0 => ?_⟩
  unfold coldDenom
  rw [if_pos h0]

theorem claim_C4_witness :
    buildUserProfile ⟨[], []⟩ (fun _ => some 0) [] = none ∧
      coldDenom [] ⟨[], []⟩ [] = 1 :=
  ⟨(claim_C4_amended ⟨[], []⟩ (fun _ => some 0) [] [] ⟨[], []⟩ []).1 (le_of_eq rfl),
    (claim_C4_amended ⟨[], []⟩ (fun _ => some 0) [] [] ⟨[], []⟩ []).2.2.2 rfl⟩

/-! ## Claim C2 (code bug) -/

/-- C2: the empty catalog does return an empty result for any history, but a
non-empty catalog whose documents yield no vocabulary term (all-empty text, or
text consisting only of stop words) makes `TfidfVectorizer.fit_transform`
raise `ValueError` instead of producing the claimed cold-start result. -/
theorem claim_C2_bug :
    (∀ (interactions : List Interaction) (k : ℕ),
      generateRecommendations [] interactions k = Except.ok []) ∧
    generateRecommendations [⟨"v1", "", "", none, 0⟩] [] 5 =
      Except.error "empty vocabulary; perhaps the documents only contain stop words" ∧
    generateRecommendations [⟨"v2", "the of and", "", none, 0⟩] [] 5 =
      Except.error "empty vocabulary; perhaps the documents only contain stop words" :=
  ⟨fun _ _ => rfl, rfl, rfl⟩

/-! ## The branches of `generate_recommendations` -/

/-- The matrix `fit_transform` returns for a catalog (abbreviating the
`.ok` payload of `fitTransform` on the catalog's corpus). -/
noncomputable def fittedMatrix (videos : List Video) : TfidfMatrix :=
  ⟨vocabulary (videos.map videoText),
   (videos.map videoText).map (fun d => tfidfRow (videos.map videoText) d)⟩

theorem fitTransform_eq (videos : List Video)
    (h : vocabulary (videos.map videoText) ≠ []) :
    fitTransform (videos.map videoText) = .ok (fittedMatrix videos) := by
  unfold fitTransform fittedMatrix
  rw [if_neg h]

theorem generateRecommendations_cold (videos : List Video)
    (interactions : List Interaction) (k : ℕ) (hv : videos ≠ [])
    (hvoc : vocabulary (videos.map videoText) ≠ [])
    (hpos : positivesOf videos interactions = []) :
    generateRecommendations videos interactions k =
      .ok (coldStartRecommendations videos (fittedMatrix videos)
        (interactions.map (fun it => it.video_id)) k) := by
  unfold generateRecommendations
  rw [if_neg (by simpa [List.isEmpty_iff] using hv), fitTransform_eq videos hvoc]
  dsimp only
  rw [hpos]
  rfl

theorem generateRecommendations_profile (videos : List Video)
    (interactions : List Interaction) (k : ℕ) {p : String → ℝ} (hv : videos ≠ [])
    (hvoc : vocabulary (videos.map videoText) ≠ [])
    (hpos : positivesOf videos interactions ≠ [])
    (hb : buildUserProfile (fittedMatrix videos) (idxByVideoId videos)
      (positivesOf videos interactions) = some p) :
    generateRecommendations videos interactions k =
      .ok (profilePathItems videos (fittedMatrix videos) p
        (interactions.map (fun it => it.video_id)) k) := by
  unfold generateRecommendations
  rw [if_neg (by simpa [List.isEmpty_iff] using hv), fitTransform_eq videos hvoc]
  dsimp only
  rw [if_neg (by simpa [List.isEmpty_iff] using hpos), hb]

/-- Exhaustive case analysis on a recommendation run. -/
theorem generateRecommendations_cases (videos : List Video)
    (interactions : List Interaction) (k : ℕ) :
    generateRecommendations videos interactions k = Except.ok [] ∨
    (∃ e, generateRecommendations videos interactions k = Except.error e) ∨
    generateRecommendations videos interactions k =
      .ok (coldStartRecommendations videos (fittedMatrix videos)
        (interactions.map (fun it => it.video_id)) k) ∨
    ∃ p, buildUserProfile (fittedMatrix videos) (idxByVideoId videos)
        (positivesOf videos interactions) = some p ∧
      generateRecommendations videos interactions k =
        .ok (profilePathItems videos (fittedMatrix videos) p
          (interactions.map (fun it => it.video_id)) k) := by
  by_cases hv : videos = []
  · subst hv
    exact Or.inl rfl
  · by_cases hvoc : vocabulary (videos.map videoText) = []
    · refine Or.inr (Or.inl ⟨"empty vocabulary; perhaps the documents only contain stop words", ?_⟩)
      unfold generateRecommendations
      rw [if_neg (by simpa [List.isEmpty_iff] using hv)]
      unfold fitTransform
      rw [if_pos hvoc]
    · by_cases hpos : positivesOf videos interactions = []
      · exact Or.inr (Or.inr (Or.inl (generateRecommendations_cold videos interactions k hv hvoc hpos)))
      · rcases hb : buildUserProfile (fittedMatrix videos) (idxByVideoId videos)
          (positivesOf videos interactions) with _ | p
        · refine Or.inr (Or.inr (Or.inl ?_))
          unfold generateRecommendations
          rw [if_neg (by simpa [List.isEmpty_iff] using hv), fitTransform_eq videos hvoc]
          dsimp only
          rw [if_neg (by simpa [List.isEmpty_iff] using hpos), hb]
        · exact Or.inr (Or.inr (Or.inr ⟨p, rfl,
            generateRecommendations_profile videos interactions k hv hvoc hpos hb⟩))

/-- Every cold-start item comes from a sorted candidate index, with the
fixed reasons and the normalized-richness score. -/
theorem mem_coldStart {videos : List Video} {m : TfidfMatrix}
    {interacted : List String} {k : ℕ} {item : RecommendationItem}
    (h : item ∈ coldStartRecommendations videos m interacted k) :
    ∃ i ∈ sortedCandidates videos m interacted,
      item = ⟨(getV videos i).video_id,
        round6 ((nnzRow m i : ℝ) / (coldDenom videos m interacted : ℝ)),
        coldReasons⟩ := by
  unfold coldStartRecommendations at h
  split_ifs at h
  · cases h
  · rcases List.mem_map.1 h with ⟨i, hi, rfl⟩
    exact ⟨i, (List.take_sublist _ _).subset hi, rfl⟩

/-- Every profile-path item comes from a selected, in-range index with a
non-negative adjusted score. -/
theorem mem_profilePath {videos : List Video} {m : TfidfMatrix}
    {profile : String → ℝ} {interacted : List String} {k : ℕ}
    {item : RecommendationItem} (h : item ∈ profilePathItems videos m profile interacted k) :
    ∃ i, i < videos.length ∧ 0 ≤ scoresExcl videos m profile interacted i ∧
      item = mkProfileItem videos m profile i (scoresExcl videos m profile interacted i) := by
  unfold profilePathItems at h
  rcases List.mem_map.1 h with ⟨i, hi, rfl⟩
  have hm := mem_selectIdx hi
  exact ⟨i, mem_rankedIndices.1 hm.1, hm.2, rfl⟩

/-- A non-negative adjusted score means the index was not excluded, so the
adjusted score is the underlying cosine similarity. -/
theorem scoresExcl_eq_cos {videos : List Video} {m : TfidfMatrix}
    {profile : String → ℝ} {interacted : List String} {i : ℕ}
    (h : 0 ≤ scoresExcl videos m profile interacted i) :
    scoresExcl videos m profile interacted i = cosSim m profile (rowAt m i) ∧
      excludedIdx videos interacted i = false := by
  unfold scoresExcl at h ⊢
  by_cases he : excludedIdx videos interacted i
  · rw [if_pos he] at h
    norm_num at h
  · rw [if_neg he]
    exact ⟨rfl, Bool.not_eq_true _ ▸ (by simpa using he)⟩

/-! ## Claim C7 -/

/-- C7: a user whose history holds no watch/click/like event resolving to a
catalog video (in particular an all-skip history) is routed to the cold-start
path, and the profile-input filter keeps only watch/click/like events. -/
theorem claim_C7 (videos : List Video) (interactions : List Interaction) (k : ℕ)
    (hv : videos ≠ [])
    (hvoc : vocabulary (videos.map videoText) ≠ [])
    (hskip : ∀ it ∈ interactions,
      it.event_type ∉ POSITIVE_EVENTS ∨ idxByVideoId videos it.video_id = none) :
    generateRecommendations videos interactions k =
      .ok (coldStartRecommendations videos (fittedMatrix videos)
        (interactions.map (fun it => it.video_id)) k) ∧
    ∀ ints2 : List Interaction,
      (positivesOf videos ints2).Forall (fun it => it.event_type ∈ POSITIVE_EVENTS) := by
  have hpos : positivesOf videos interactions = [] := by
    unfold positivesOf
    rw [List.filter_eq_nil_iff]
    intro it hit
    rcases hskip it hit with h | h
    · simp [h]
    · simp [h]
  refine ⟨generateRecommendations_cold videos interactions k hv hvoc hpos, ?_⟩
  intro ints2
  rw [List.forall_iff_forall_mem]
  intro it hit
  have h2 := (List.mem_filter.1 hit).2
  simp only [Bool.and_eq_true, decide_eq_true_eq] at h2
  exact h2.1

theorem claim_C7_witness :
    generateRecommendations [⟨"A", "alpha alpha", "", none, 0⟩]
        [⟨"u", "A", "skip", none⟩] 1 =
      .ok (coldStartRecommendations [⟨"A", "alpha alpha", "", none, 0⟩]
        (fittedMatrix [⟨"A", "alpha alpha", "", none, 0⟩]) ["A"] 1) :=
  (claim_C7 [⟨"A", "alpha alpha", "", none, 0⟩] [⟨"u", "A", "skip", none⟩] 1
    (by simp) (by decide) (by decide)).1

/-! ## Claim C1 -/

/-- C1: on both the profile-similarity path and the cold-start path, no
returned item's video id occurs in the interaction history (any event kind),
and no returned item has a negative score. -/
theorem claim_C1 (videos : List Video) (interactions : List Interaction) (k : ℕ)
    (hnd : (videos.map Video.video_id).Nodup) :
    (resultItems (generateRecommendations videos interactions k)).Forall
      (fun item =>
        item.video_id ∉ interactions.map Interaction.video_id ∧ 0 ≤ item.score) := by
  rw [List.forall_iff_forall_mem]
  intro item hitem
  rcases generateRecommendations_cases videos interactions k with h | ⟨e, h⟩ | h | ⟨p, _, h⟩
  · rw [h] at hitem
    cases hitem
  · rw [h] at hitem
    cases hitem
  · rw [h] at hitem
    rcases mem_coldStart hitem with ⟨i, hi, rfl⟩
    have hcand := (sortedCandidates_perm _ _ _).subset hi
    have hmemc := mem_candidateIndices.1 hcand
    exact ⟨hmemc.2, round6_nonneg (coldScore_unit hi).1⟩
  · rw [h] at hitem
    rcases mem_profilePath hitem with ⟨i, hlt, hs, rfl⟩
    constructor
    · intro hmem
      have hexcl : excludedIdx videos (interactions.map (fun it => it.video_id)) i = true := by
        refine (excludedIdx_true_iff hnd _ hlt).2 ?_
        simpa [mkProfileItem] using hmem
      have : scoresExcl videos (fittedMatrix videos) p
          (interactions.map (fun it => it.video_id)) i = -1 := by
        unfold scoresExcl
        rw [if_pos hexcl]
      rw [this] at hs
      norm_num at hs
    · exact round6_nonneg hs

theorem claim_C1_witness :
    ((List.map Video.video_id [⟨"A", "alpha alpha", "", none, 0⟩]).Nodup) ∧
      (resultItems (generateRecommendations [⟨"A", "alpha alpha", "", none, 0⟩]
          [⟨"u", "A", "watch", some 10⟩] 3)).Forall
        (fun item => item.video_id ∉ List.map Interaction.video_id
            [⟨"u", "A", "watch", some 10⟩] ∧ 0 ≤ item.score) :=
  ⟨by decide, claim_C1 [⟨"A", "alpha alpha", "", none, 0⟩]
    [⟨"u", "A", "watch", some 10⟩] 3 (by decide)⟩

/-! ## Claim C8 -/

theorem scoresExcl_le_one {videos : List Video} {m : TfidfMatrix}
    {profile : String → ℝ} {interacted : List String} (hv : m.vocab.Nodup) (i : ℕ) :
    scoresExcl videos m profile interacted i ≤ 1 := by
  unfold scoresExcl
  split_ifs
  · norm_num
  · exact cosSim_le_one m hv profile _

/-- C8: with `k` in the caller's expected 1–100 range, the result has at most
`k` items, every score lies in `[0, 1]`, and every profile-path item's score
is the raw cosine similarity of the profile with that video's row, rounded to
6 decimal places. -/
theorem claim_C8 (videos : List Video) (interactions : List Interaction) (k : ℕ)
    (_hk1 : 1 ≤ k) (_hk2 : k ≤ 100) :
    (resultItems (generateRecommendations videos interactions k)).length ≤ k ∧
    (resultItems (generateRecommendations videos interactions k)).Forall
      (fun item => 0 ≤ item.score ∧ item.score ≤ 1) ∧
    ∀ (m : TfidfMatrix) (profile : String → ℝ) (interacted : List String) (k2 : ℕ),
      (profilePathItems videos m profile interacted k2).Forall
        (fun item => ∃ i, i < videos.length ∧
          item.video_id = (getV videos i).video_id ∧
          item.score = round6 (cosSim m profile (rowAt m i)) ∧
          0 ≤ cosSim m profile (rowAt m i)) := by
  refine ⟨?_, ?_, ?_⟩
  · rcases generateRecommendations_cases videos interactions k with h | ⟨e, h⟩ | h | ⟨p, _, h⟩
    · rw [h]
      simp [resultItems]
    · rw [h]
      simp [resultItems]
    · rw [h]
      show (coldStartRecommendations _ _ _ _).length ≤ k
      unfold coldStartRecommendations
      split_ifs
      · simp
      · rw [List.length_map]
        exact le_trans (List.length_take_le _ _) (le_refl k)
    · rw [h]
      show (profilePathItems _ _ _ _ _).length ≤ k
      unfold profilePathItems
      rw [List.length_map]
      exact length_selectIdx_le _ _ _
  · rw [List.forall_iff_forall_mem]
    intro item hitem
    rcases generateRecommendations_cases videos interactions k with h | ⟨e, h⟩ | h | ⟨p, _, h⟩
    · rw [h] at hitem
      cases hitem
    · rw [h] at hitem
      cases hitem
    · rw [h] at hitem
      rcases mem_coldStart hitem with ⟨i, hi, rfl⟩
      exact ⟨round6_nonneg (coldScore_unit hi).1, round6_le_one (coldScore_unit hi).2⟩
    · rw [h] at hitem
      rcases mem_profilePath hitem with ⟨i, hlt, hs, rfl⟩
      refine ⟨round6_nonneg hs, round6_le_one ?_⟩
      exact scoresExcl_le_one (vocabulary_nodup _) i
  · intro m profile interacted k2
    rw [List.forall_iff_forall_mem]
    intro item hitem
    rcases mem_profilePath hitem with ⟨i, hlt, hs, rfl⟩
    have hcos := scoresExcl_eq_cos hs
    refine ⟨i, hlt, rfl, ?_, hcos.1 ▸ hs⟩
    show round6 (scoresExcl videos m profile interacted i) = _
    rw [hcos.1]

theorem claim_C8_witness :
    1 ≤ 1 ∧ 1 ≤ 100 ∧
      (resultItems (generateRecommendations [] [] 1)).length ≤ 1 :=
  ⟨by decide, by decide, (claim_C8 [] [] 1 (by decide) (by decide)).1⟩

/-! ## Claim C3 (corrected) -/

/-- C3 amended: the selected profile-path candidates are ordered by adjusted
score descending, and two selected candidates with exactly equal scores appear
with the *later* catalog index first — `np.argsort(scores)[::-1]` reverses a
stable ascending argsort, so equal scores come out in descending index order
(and the items are exactly the selected indices mapped to items). -/
theorem claim_C3_amended (videos : List Video) (m : TfidfMatrix)
    (profile : String → ℝ) (interacted : List String) (k : ℕ) :
    (selectIdx (scoresExcl videos m profile interacted) k
        (rankedIndices videos.length (scoresExcl videos m profile interacted)) 0).Pairwise
      (fun i j =>
        scoresExcl videos m profile interacted j < scoresExcl videos m profile interacted i ∨
          (scoresExcl videos m profile interacted i = scoresExcl videos m profile interacted j ∧
            j < i)) ∧
    profilePathItems videos m profile interacted k =
      (selectIdx (scoresExcl videos m profile interacted) k
          (rankedIndices videos.length (scoresExcl videos m profile interacted)) 0).map
        (fun i => mkProfileItem videos m profile i
          (scoresExcl videos m profile interacted i)) := by
  constructor
  · have hsub := selectIdx_sublist (scoresExcl videos m profile interacted) k
      (rankedIndices videos.length (scoresExcl videos m profile interacted)) 0
    have hp1 := (rankedIndices_pairwise videos.length
      (scoresExcl videos m profile interacted)).sublist hsub
    have hp2 : (selectIdx (scoresExcl videos m profile interacted) k
        (rankedIndices videos.length (scoresExcl videos m profile interacted)) 0).Pairwise
        (fun i j => i ≠ j) :=
      (rankedIndices_nodup videos.length (scoresExcl videos m profile interacted)).sublist hsub
    refine (hp1.and hp2).imp ?_
    rintro i j ⟨hrel, hne⟩
    rcases hrel with hlt | ⟨heq, hle⟩
    · exact Or.inl hlt
    · exact Or.inr ⟨heq.symm, lt_of_le_of_ne hle (fun hji => hne hji.symm)⟩
  · rfl

/-- The three-video catalog of the C3 counterexample: `B` and `C` carry the
same text, hence identical TF-IDF rows and identical similarity scores. -/
def c3videos : List Video :=
  [⟨"A", "alpha alpha", "", none, 0⟩,
   ⟨"B", "beta beta", "", none, 0⟩,
   ⟨"C", "beta beta", "", none, 0⟩]

/-- The single positive interaction of the C3 counterexample. -/
def c3interactions : List Interaction := [⟨"u", "A", "watch", none⟩]

/-- C3 counterexample: videos `B` (catalog position 1) and `C` (position 2)
have exactly equal similarity scores (both 0), yet the returned order is
`["C", "B"]` — the later catalog position is ranked first, refuting the
claimed stable tie-break by original catalog order. -/
theorem claim_C3_counterexample :
    (resultItems (generateRecommendations c3videos c3interactions 5)).map
        RecommendationItem.video_id = ["C", "B"] ∧
      (resultItems (generateRecommendations c3videos c3interactions 5)).map
        RecommendationItem.score = [0, 0] := by
  have hv : c3videos ≠ [] := by simp [c3videos]
  have hvoc : vocabulary (c3videos.map videoText) ≠ [] := by decide
  have hpos : positivesOf c3videos c3interactions = c3interactions := by decide
  have hposne : positivesOf c3videos c3interactions ≠ [] := by
    rw [hpos]
    simp [c3interactions]
  have hidxA : idxByVideoId c3videos "A" = some 0 := by decide
  have hrows : profileRows (fittedMatrix c3videos) (idxByVideoId c3videos) c3interactions =
      [(rowAt (fittedMatrix c3videos) 0, interactionWeight ⟨"u", "A", "watch", none⟩)] := by
    show profileRows _ _ (⟨"u", "A", "watch", none⟩ :: []) = _
    rw [profileRows, hidxA, profileRows]
  have hne : profileRows (fittedMatrix c3videos) (idxByVideoId c3videos) c3interactions ≠ [] := by
    rw [hrows]
    simp
  have hprof := buildUserProfile_eq_some hne
  have hb : buildUserProfile (fittedMatrix c3videos) (idxByVideoId c3videos)
      (positivesOf c3videos c3interactions) = some (fun t =>
        (((profileRows (fittedMatrix c3videos) (idxByVideoId c3videos) c3interactions).map
          (fun q => q.2 * q.1 t)).sum) /
        profileTotalWeight (fittedMatrix c3videos) (idxByVideoId c3videos) c3interactions) := by
    rw [hpos]
    exact hprof
  have hgen := generateRecommendations_profile c3videos c3interactions 5 hv hvoc hposne hb
  rw [hgen]
  -- name the profile and rows
  set p : String → ℝ := fun t =>
    (((profileRows (fittedMatrix c3videos) (idxByVideoId c3videos) c3interactions).map
      (fun q => q.2 * q.1 t)).sum) /
    profileTotalWeight (fittedMatrix c3videos) (idxByVideoId c3videos) c3interactions with hpdef
  have hr0 : rowAt (fittedMatrix c3videos) 0 =
      tfidfRow (c3videos.map videoText) ((c3videos.map videoText).getD 0 "") :=
    rowAt_fitted (by decide) _
  have hr1 : rowAt (fittedMatrix c3videos) 1 =
      tfidfRow (c3videos.map videoText) ((c3videos.map videoText).getD 1 "") :=
    rowAt_fitted (by decide) _
  have hr2 : rowAt (fittedMatrix c3videos) 2 =
      tfidfRow (c3videos.map videoText) ((c3videos.map videoText).getD 2 "") :=
    rowAt_fitted (by decide) _
  have hz0b : rowAt (fittedMatrix c3videos) 0 "beta" = 0 := by
    rw [hr0]
    exact tfidfRow_eq_zero (by decide)
  have hz1a : rowAt (fittedMatrix c3videos) 1 "alpha" = 0 := by
    rw [hr1]
    exact tfidfRow_eq_zero (by decide)
  have hz2a : rowAt (fittedMatrix c3videos) 2 "alpha" = 0 := by
    rw [hr2]
    exact tfidfRow_eq_zero (by decide)
  have hpb : p "beta" = 0 := by
    rw [hpdef]
    show (((profileRows _ _ _).map (fun q => q.2 * q.1 "beta")).sum) / _ = 0
    rw [hrows]
    simp [hz0b]
  have hvocabm : (fittedMatrix c3videos).vocab = ["alpha", "beta"] := by decide
  have hdot1 : dotVec (fittedMatrix c3videos) p (rowAt (fittedMatrix c3videos) 1) = 0 := by
    unfold dotVec
    rw [hvocabm]
    simp [hz1a, hpb]
  have hdot2 : dotVec (fittedMatrix c3videos) p (rowAt (fittedMatrix c3videos) 2) = 0 := by
    unfold dotVec
    rw [hvocabm]
    simp [hz2a, hpb]
  -- the adjusted scores
  have hintmap : c3interactions.map (fun it => it.video_id) = ["A"] := rfl
  have hs0 : scoresExcl c3videos (fittedMatrix c3videos) p
      (c3interactions.map (fun it => it.video_id)) 0 = -1 := by
    unfold scoresExcl
    rw [if_pos (by decide)]
  have hs1 : scoresExcl c3videos (fittedMatrix c3videos) p
      (c3interactions.map (fun it => it.video_id)) 1 = 0 := by
    unfold scoresExcl
    rw [if_neg (by decide)]
    unfold cosSim
    rw [hdot1, zero_div]
  have hs2 : scoresExcl c3videos (fittedMatrix c3videos) p
      (c3interactions.map (fun it => it.video_id)) 2 = 0 := by
    unfold scoresExcl
    rw [if_neg (by decide)]
    unfold cosSim
    rw [hdot2, zero_div]
  -- the ranking
  have h12 : argsortRel (scoresExcl c3videos (fittedMatrix c3videos) p
      (c3interactions.map (fun it => it.video_id))) 1 2 :=
    Or.inr ⟨by rw [hs1, hs2], by norm_num⟩
  have h01 : argsortRel (scoresExcl c3videos (fittedMatrix c3videos) p
      (c3interactions.map (fun it => it.video_id))) 0 1 :=
    Or.inl (by rw [hs0, hs1]; norm_num)
  have hlen : c3videos.length = 3 := rfl
  have hranked : rankedIndices c3videos.length (scoresExcl c3videos (fittedMatrix c3videos) p
      (c3interactions.map (fun it => it.video_id))) = [2, 1, 0] := by
    classical
    have hins : (([0, 1, 2] : List ℕ).insertionSort (argsortRel (scoresExcl c3videos
        (fittedMatrix c3videos) p (c3interactions.map (fun it => it.video_id))))) = [0, 1, 2] := by
      simp only [List.insertionSort, List.orderedInsert_nil]
      rw [List.orderedInsert_of_le _ _ h12, List.orderedInsert_of_le _ _ h01]
    unfold rankedIndices
    rw [hlen, show List.range 3 = [0, 1, 2] by decide, hins]
    rfl
  -- the selection
  have hsel : selectIdx (scoresExcl c3videos (fittedMatrix c3videos) p
      (c3interactions.map (fun it => it.video_id))) 5 [2, 1, 0] 0 = [2, 1] := by
    rw [selectIdx, if_neg (by norm_num), if_neg (by rw [hs2]; norm_num)]
    rw [selectIdx, if_neg (by norm_num), if_neg (by rw [hs1]; norm_num)]
    rw [selectIdx, if_neg (by norm_num), if_pos (by rw [hs0]; norm_num)]
    rw [selectIdx]
  show ((profilePathItems c3videos (fittedMatrix c3videos) p
      (c3interactions.map (fun it => it.video_id)) 5).map RecommendationItem.video_id = _) ∧ _
  unfold profilePathItems
  rw [hranked, hsel]
  constructor
  · rfl
  · show [round6 (scoresExcl c3videos (fittedMatrix c3videos) p
        (c3interactions.map (fun it => it.video_id)) 2),
      round6 (scoresExcl c3videos (fittedMatrix c3videos) p
        (c3interactions.map (fun it => it.video_id)) 1)] = [(0 : ℝ), 0]
    rw [hs2, hs1, round6_zero]

/-! ## Claim C6 (corrected) -/

/-- C6 amended: cold-start candidates are the catalog minus the interacted
videos; they are ordered by the composite `(non-zero-term count, recency)` key
descending, where recency is `published_at` falling back to `created_at`; and
each returned item's score is the non-zero-term count divided by the maximum
count among candidates (denominator defaulted to 1 when that maximum is 0),
*rounded to 6 decimal places*, hence in `[0, 1]`. -/
theorem claim_C6_amended (videos : List Video) (m : TfidfMatrix)
    (interacted : List String) (k : ℕ) :
    List.Perm (sortedCandidates videos m interacted) (candidateIndices videos interacted) ∧
    (∀ i, i ∈ candidateIndices videos interacted ↔
      i < videos.length ∧ (getV videos i).video_id ∉ interacted) ∧
    (sortedCandidates videos m interacted).Pairwise
      (fun i j => keyLtPair (coldKey videos m j) (coldKey videos m i) ∨
        coldKey videos m i = coldKey videos m j) ∧
    (∀ v : Video, recencyKey v = v.published_at.getD v.created_at) ∧
    (coldStartRecommendations videos m interacted k).Forall
      (fun item => ∃ i, i ∈ sortedCandidates videos m interacted ∧
        item.video_id = (getV videos i).video_id ∧
        item.score = round6 ((nnzRow m i : ℝ) / (coldDenom videos m interacted : ℝ)) ∧
        0 ≤ item.score ∧ item.score ≤ 1) ∧
    (coldMaxNnz videos m interacted = 0 → coldDenom videos m interacted = 1) := by
  refine ⟨sortedCandidates_perm videos m interacted,
    fun i => mem_candidateIndices, ?_, ?_, ?_, ?_⟩
  · refine (sortedCandidates_pairwise videos m interacted).imp ?_
    rintro i j (h | ⟨he, _⟩)
    · exact Or.inl h
    · exact Or.inr he
  · intro v
    cases hv : v.published_at <;> simp [recencyKey, hv]
  · rw [List.forall_iff_forall_mem]
    intro item hitem
    rcases mem_coldStart hitem with ⟨i, hi, rfl⟩
    exact ⟨i, hi, rfl, rfl,
      round6_nonneg (coldScore_unit hi).1, round6_le_one (coldScore_unit hi).2⟩
  · intro h0
    unfold coldDenom
    rw [if_pos h0]

/-- The two-video catalog of the C6 counterexample: `A` has three distinct
metadata terms, `B` has one. -/
def c6videos : List Video :=
  [⟨"A", "alpha beta gamma", "", none, 0⟩, ⟨"B", "alpha", "", none, 0⟩]

/-- C6 counterexample: on the cold-start path the returned score of video `B`
is `round(1/3, 6) = 0.333333`, not the exact quotient `1/3` of its non-zero
term count by the maximum count — the claim omits the 6-decimal rounding. -/
theorem claim_C6_counterexample :
    (resultItems (generateRecommendations c6videos [] 2)).map RecommendationItem.score =
      [1, (333333 : ℝ) / 1000000] ∧
    (nnzRow (fittedMatrix c6videos) 1 : ℝ) /
      (coldDenom c6videos (fittedMatrix c6videos) [] : ℝ) = 1 / 3 ∧
    ((333333 : ℝ) / 1000000) ≠ 1 / 3 := by
  have hv : c6videos ≠ [] := by simp [c6videos]
  have hvoc : vocabulary (c6videos.map videoText) ≠ [] := by decide
  have hpos : positivesOf c6videos [] = [] := rfl
  have hgen := generateRecommendations_cold c6videos [] 2 hv hvoc hpos
  have hn0 : nnzRow (fittedMatrix c6videos) 0 = 3 := by
    have h := nnzRow_fitted (c6videos.map videoText) (i := 0) (by decide)
    rw [show fittedMatrix c6videos = ⟨vocabulary (c6videos.map videoText),
      (c6videos.map videoText).map (fun d => tfidfRow (c6videos.map videoText) d)⟩ from rfl, h]
    decide
  have hn1 : nnzRow (fittedMatrix c6videos) 1 = 1 := by
    have h := nnzRow_fitted (c6videos.map videoText) (i := 1) (by decide)
    rw [show fittedMatrix c6videos = ⟨vocabulary (c6videos.map videoText),
      (c6videos.map videoText).map (fun d => tfidfRow (c6videos.map videoText) d)⟩ from rfl, h]
    decide
  have h01 : coldRel c6videos (fittedMatrix c6videos) 0 1 := by
    refine Or.inl (Or.inl ?_)
    show nnzRow (fittedMatrix c6videos) 1 < nnzRow (fittedMatrix c6videos) 0
    rw [hn0, hn1]
    norm_num
  have hsorted : sortedCandidates c6videos (fittedMatrix c6videos) [] = [0, 1] := by
    classical
    unfold sortedCandidates
    rw [show candidateIndices c6videos [] = [0, 1] from by decide]
    simp only [List.insertionSort, List.orderedInsert_nil]
    exact List.orderedInsert_of_le _ _ h01
  have hmax : coldMaxNnz c6videos (fittedMatrix c6videos) [] = 3 := by
    unfold coldMaxNnz
    rw [hsorted]
    simp only [List.map_cons, List.map_nil]
    rw [hn0, hn1]
    rfl
  have hdenom : coldDenom c6videos (fittedMatrix c6videos) [] = 3 := by
    unfold coldDenom
    rw [hmax]
    norm_num
  have hr13 : round6 ((1 : ℝ) / 3) = 333333 / 1000000 := by
    unfold round6
    have hround : round ((1 / 3 : ℝ) * 10 ^ 6) = 333333 := by
      rw [round_eq]
      have : ⌊(1 / 3 : ℝ) * 10 ^ 6 + 1 / 2⌋ = 333333 := by
        rw [Int.floor_eq_iff]
        norm_num
      exact this
    rw [hround]
    norm_num
  refine ⟨?_, ?_, by norm_num⟩
  · rw [hgen]
    show (coldStartRecommendations c6videos (fittedMatrix c6videos) [] 2).map
      RecommendationItem.score = _
    unfold coldStartRecommendations
    rw [if_neg (by decide), hsorted]
    show [round6 ((nnzRow (fittedMatrix c6videos) 0 : ℝ) /
        (coldDenom c6videos (fittedMatrix c6videos) [] : ℝ)),
      round6 ((nnzRow (fittedMatrix c6videos) 1 : ℝ) /
        (coldDenom c6videos (fittedMatrix c6videos) [] : ℝ))] = _
    rw [hn0, hn1, hdenom]
    have h1 : ((3 : ℕ) : ℝ) / ((3 : ℕ) : ℝ) = 1 := by norm_num
    have h2 : ((1 : ℕ) : ℝ) / ((3 : ℕ) : ℝ) = 1 / 3 := by norm_num
    rw [h1, h2, round6_one, hr13]
  · rw [hn1, hdenom]
    norm_num

/-- Witness for the C6 amended claim at a concrete catalog whose only
candidate stores no terms, exercising the defaulted denominator. -/
theorem claim_C6_amended_witness :
    coldDenom [⟨"X", "", "", none, 0⟩] ⟨[], []⟩ [] = 1 :=
  (claim_C6_amended [⟨"X", "", "", none, 0⟩] ⟨[], []⟩ [] 0).2.2.2.2.2 rfl

end YTRec
